import Mathlib

/-!
Shallow embedding of the response-sanitization pipeline of the reviewed
repository (files `sheet_review.py` and `app.py`).  Python strings are
modelled as Lean `String`s (lists of unicode code points), Python's
`str.strip` / `str.splitlines` / `in` / `re` bullet pattern are modelled
by the executable functions below, and each filter of the pipeline is a
Lean function translated from the corresponding Python function.
-/

/-- Characters treated as whitespace by Python's `str.strip()` / `\s`
(the unicode whitespace set). -/
def isPySpace (c : Char) : Bool :=
  c = ' ' ∨ c = '\t' ∨ c = '\n' ∨ c = '\x0b' ∨ c = '\x0c' ∨ c = '\r' ∨
  c = '\x1c' ∨ c = '\x1d' ∨ c = '\x1e' ∨ c = '\x1f' ∨ c = '\x85' ∨ c = '\xa0' ∨
  c = ' ' ∨ (' ' ≤ c ∧ c ≤ ' ') ∨ c = ' ' ∨ c = ' ' ∨
  c = ' ' ∨ c = ' ' ∨ c = '　'

/-- Characters at which Python's `str.splitlines()` breaks a line. -/
def isLineBreakCh (c : Char) : Bool :=
  c = '\n' ∨ c = '\r' ∨ c = '\x0b' ∨ c = '\x0c' ∨ c = '\x1c' ∨ c = '\x1d' ∨
  c = '\x1e' ∨ c = '\x85' ∨ c = ' ' ∨ c = ' '

/-- Python `str.strip()` on a list of characters. -/
def stripL (l : List Char) : List Char :=
  ((l.dropWhile isPySpace).reverse.dropWhile isPySpace).reverse

/-- Python `str.rstrip()` on a list of characters. -/
def rstripL (l : List Char) : List Char :=
  (l.reverse.dropWhile isPySpace).reverse

/-- Python `str.strip()`. -/
def pyStrip (s : String) : String := ⟨stripL s.data⟩

/-- Python `str.rstrip()`. -/
def pyRstrip (s : String) : String := ⟨rstripL s.data⟩

/-- Worker of `str.splitlines()`: `acc` holds the reversed current line and
`prevCR` records whether the previous character was a carriage return whose
pairing `\n` must be swallowed (Python treats `\r\n` as one break). -/
def splitlinesGo (prevCR : Bool) (acc : List Char) : List Char → List (List Char)
  | [] => if acc = [] then [] else [acc.reverse]
  | c :: rest =>
    if prevCR = true ∧ c = '\n' then splitlinesGo false acc rest
    else if c = '\r' then acc.reverse :: splitlinesGo true [] rest
    else if isLineBreakCh c then acc.reverse :: splitlinesGo false [] rest
    else splitlinesGo false (c :: acc) rest

/-- Python `str.splitlines()`. -/
def pySplitlines (s : String) : List String :=
  (splitlinesGo false [] s.data).map (fun l => ⟨l⟩)

/-- Python `"\n".join(...)` on lists of characters (no trailing newline). -/
def joinNLL : List (List Char) → List Char
  | [] => []
  | x :: rest =>
    match rest with
    | [] => x
    | _ :: _ => x ++ '\n' :: joinNLL rest

/-- Python `"\n".join(...)`. -/
def joinNL (l : List String) : String := ⟨joinNLL (l.map String.data)⟩

/-- Python `"\n".join(t for t in l if t)`: drops empty pieces before joining. -/
def joinNLne (l : List String) : String := joinNL (l.filter (fun t => t ≠ ""))

/-- Decides whether `n` is a contiguous prefix of `h`. -/
def preL : List Char → List Char → Bool
  | [], _ => true
  | _ :: _, [] => false
  | a :: as, b :: bs => if a = b then preL as bs else false

/-- Decides whether `n` occurs contiguously inside `h` (Python `n in h`). -/
def subL (n : List Char) : List Char → Bool
  | [] => preL n []
  | c :: t => preL n (c :: t) || subL n t

/-- Python's substring test `needle in hay`. -/
def pyInStr (needle hay : String) : Bool := subL needle.data hay.data

theorem preL_iff (n h : List Char) : preL n h = true ↔ n <+: h := by
  induction n generalizing h with
  | nil => simp [preL]
  | cons a as ih =>
    cases h with
    | nil => simp [preL]
    | cons b bs =>
      by_cases hab : a = b
      · subst hab
        simp [preL, ih, List.cons_prefix_cons]
      · simp [preL, hab, List.cons_prefix_cons]

theorem subL_iff (n h : List Char) : subL n h = true ↔ n <:+: h := by
  induction h with
  | nil =>
    simp [subL, preL_iff, List.prefix_nil, List.infix_nil]
  | cons c t ih =>
    simp only [subL, Bool.or_eq_true, preL_iff, ih]
    exact (List.infix_cons_iff).symm

theorem pyInStr_iff (n h : String) : pyInStr n h = true ↔ n.data <:+: h.data :=
  subL_iff n.data h.data

theorem mem_stripL (c : Char) (l : List Char) (h : c ∈ stripL l) : c ∈ l := by
  unfold stripL at h
  have h1 := List.mem_reverse.mp h
  have h2 := (List.dropWhile_sublist isPySpace).subset h1
  have h3 := List.mem_reverse.mp h2
  exact (List.dropWhile_sublist isPySpace).subset h3

theorem stripL_infix (l : List Char) : stripL l <:+: l := by
  unfold stripL
  have h1 : (l.dropWhile isPySpace).reverse.dropWhile isPySpace <:+ (l.dropWhile isPySpace).reverse :=
    List.dropWhile_suffix isPySpace
  have h2 : ((l.dropWhile isPySpace).reverse.dropWhile isPySpace).reverse <+: l.dropWhile isPySpace := by
    obtain ⟨t, ht⟩ := h1
    refine ⟨t.reverse, ?_⟩
    have := congrArg List.reverse ht
    simpa [List.reverse_append] using this
  have h3 : l.dropWhile isPySpace <:+ l := List.dropWhile_suffix isPySpace
  exact h2.isInfix.trans h3.isInfix

theorem dropWhile_head_false {p : α → Bool} {l : List α} :
    ∀ c, (l.dropWhile p).head? = some c → p c = false := by
  intro c hc
  have := List.head?_dropWhile_not p l
  rw [hc] at this
  exact this

theorem dropWhile_of_head_false {p : α → Bool} {l : List α}
    (h : ∀ c, l.head? = some c → p c = false) : l.dropWhile p = l := by
  cases l with
  | nil => rfl
  | cons a t =>
    have := h a rfl
    simp [List.dropWhile, this]

theorem suffix_getLast? {l₁ l₂ : List α} (h : l₁ <:+ l₂) (hne : l₁ ≠ []) :
    l₂.getLast? = l₁.getLast? := by
  obtain ⟨t, ht⟩ := h
  subst ht
  rw [List.getLast?_append]
  rcases hl : l₁.getLast? with _ | x
  · exact absurd (List.getLast?_eq_none_iff.mp hl) hne
  · rfl

theorem stripL_idem (l : List Char) : stripL (stripL l) = stripL l := by
  set A := l.dropWhile isPySpace with hA
  set B := A.reverse.dropWhile isPySpace with hB
  have hstrip : stripL l = B.reverse := rfl
  -- the head of B.reverse (the last element of B) is a non-space character
  have hBrevHead : ∀ c, B.reverse.head? = some c → isPySpace c = false := by
    intro c hc
    rw [List.head?_reverse] at hc
    have hBne : B ≠ [] := by
      intro hnil; rw [hnil] at hc; simp at hc
    have hsuf : B <:+ A.reverse := List.dropWhile_suffix isPySpace
    have hlast : A.reverse.getLast? = some c := by
      rw [suffix_getLast? hsuf hBne]; exact hc
    rw [List.getLast?_reverse] at hlast
    exact dropWhile_head_false (p := isPySpace) (l := l) c (by rw [← hA, hlast])
  -- the head of B is a non-space character
  have hBHead : ∀ c, B.head? = some c → isPySpace c = false := by
    intro c hc
    exact dropWhile_head_false (p := isPySpace) (l := A.reverse) c (by rw [← hB, hc])
  rw [hstrip]
  unfold stripL
  rw [dropWhile_of_head_false hBrevHead, List.reverse_reverse,
    dropWhile_of_head_false hBHead]

theorem splitlinesGo_consume {xs : List Char} (h : ∀ c ∈ xs, isLineBreakCh c = false) :
    ∀ acc ys, splitlinesGo false acc (xs ++ ys) = splitlinesGo false (xs.reverse ++ acc) ys := by
  induction xs with
  | nil => intro acc ys; simp
  | cons c rest ih =>
    intro acc ys
    have hc : isLineBreakCh c = false := h c (by simp)
    have hcr : c ≠ '\r' := by
      intro e; subst e; simp [isLineBreakCh] at hc
    have hrest : ∀ c ∈ rest, isLineBreakCh c = false := fun x hx => h x (by simp [hx])
    simp only [List.cons_append, splitlinesGo]
    rw [if_neg (by simp), if_neg hcr, if_neg (by simp [hc])]
    simp only [List.append_eq]
    rw [ih hrest]
    simp

theorem splitlinesGo_newline (acc ys) :
    splitlinesGo false acc ('\n' :: ys) = acc.reverse :: splitlinesGo false [] ys := by
  simp only [splitlinesGo]
  rw [if_neg (by simp), if_neg (by decide), if_pos (by decide)]

theorem splitlinesGo_lbfree :
    ∀ xs prevCR acc, (∀ c ∈ acc, isLineBreakCh c = false) →
      ∀ p ∈ splitlinesGo prevCR acc xs, ∀ c ∈ p, isLineBreakCh c = false := by
  intro xs
  induction xs with
  | nil =>
    intro prevCR acc hacc p hp c hc
    simp only [splitlinesGo] at hp
    split at hp
    · simp at hp
    · simp at hp
      subst hp
      exact hacc c (List.mem_reverse.mp hc)
  | cons a rest ih =>
    intro prevCR acc hacc p hp c hc
    simp only [splitlinesGo] at hp
    split at hp
    · exact ih false acc hacc p hp c hc
    · split at hp
      · rcases List.mem_cons.mp hp with h1 | h2
        · subst h1; exact hacc c (List.mem_reverse.mp hc)
        · exact ih true [] (by simp) p h2 c hc
      · split at hp
        · rcases List.mem_cons.mp hp with h1 | h2
          · subst h1; exact hacc c (List.mem_reverse.mp hc)
          · exact ih false [] (by simp) p h2 c hc
        · refine ih false (a :: acc) ?_ p hp c hc
          intro x hx
          rcases List.mem_cons.mp hx with h1 | h2
          · subst h1
            rename_i hcond
            simpa using hcond
          · exact hacc x h2

theorem splitlines_joinNLL (pcs : List (List Char))
    (h : ∀ p ∈ pcs, ∀ c ∈ p, isLineBreakCh c = false) :
    splitlinesGo false [] (joinNLL pcs) =
      if pcs.getLast? = some [] then pcs.dropLast else pcs := by
  induction pcs with
  | nil => simp [joinNLL, splitlinesGo]
  | cons x rest ih =>
    cases rest with
    | nil =>
      have hx : ∀ c ∈ x, isLineBreakCh c = false := h x (by simp)
      show splitlinesGo false [] (joinNLL [x]) = _
      have h1 : joinNLL [x] = x ++ [] := by simp [joinNLL]
      rw [h1, splitlinesGo_consume hx]
      by_cases hxe : x = []
      · subst hxe; simp [splitlinesGo]
      · simp only [splitlinesGo, List.append_nil]
        rw [if_neg (by simpa using hxe)]
        simp [List.getLast?_singleton, hxe]
    | cons y rest2 =>
      have hx : ∀ c ∈ x, isLineBreakCh c = false := h x (by simp)
      have hrest : ∀ p ∈ y :: rest2, ∀ c ∈ p, isLineBreakCh c = false :=
        fun p hp => h p (by simp [hp])
      have h1 : joinNLL (x :: y :: rest2) = x ++ '\n' :: joinNLL (y :: rest2) := by
        simp [joinNLL]
      rw [h1, splitlinesGo_consume hx, List.append_nil, splitlinesGo_newline,
        List.reverse_reverse, ih hrest]
      rw [List.getLast?_cons_cons]
      by_cases hcond : (y :: rest2).getLast? = some []
      · rw [if_pos hcond, if_pos hcond]
        rfl
      · rw [if_neg hcond, if_neg hcond]

theorem strData_map_mk (l : List String) :
    (l.map String.data).map (fun d => (⟨d⟩ : String)) = l := by
  rw [List.map_map]
  have : (fun d => (⟨d⟩ : String)) ∘ String.data = id := funext fun s => rfl
  rw [this, List.map_id]

theorem pySplitlines_joinNL (l : List String)
    (h : ∀ s ∈ l, ∀ c ∈ s.data, isLineBreakCh c = false) :
    pySplitlines (joinNL l) = if l.getLast? = some "" then l.dropLast else l := by
  unfold pySplitlines joinNL
  have hpcs : ∀ p ∈ l.map String.data, ∀ c ∈ p, isLineBreakCh c = false := by
    intro p hp
    obtain ⟨s, hs, rfl⟩ := List.mem_map.mp hp
    exact h s hs
  rw [show (String.data ⟨joinNLL (l.map String.data)⟩) = joinNLL (l.map String.data) from rfl]
  rw [splitlines_joinNLL (l.map String.data) hpcs]
  have hiff : ((l.map String.data).getLast? = some []) ↔ (l.getLast? = some "") := by
    rw [List.getLast?_map]
    rcases l.getLast? with _ | s
    · simp
    · simp only [Option.map_some', Option.some.injEq]
      constructor
      · intro hd; rw [String.ext hd]
      · intro he; rw [he]
  by_cases hlast : l.getLast? = some ""
  · rw [if_pos (hiff.mpr hlast), if_pos hlast, ← List.map_dropLast, strData_map_mk]
  · rw [if_neg (fun hc => hlast (hiff.mp hc)), if_neg hlast, strData_map_mk]

theorem mem_of_mem_splitlines_joinNL {l : List String} {s : String}
    (h : ∀ t ∈ l, ∀ c ∈ t.data, isLineBreakCh c = false)
    (hs : s ∈ pySplitlines (joinNL l)) : s ∈ l := by
  rw [pySplitlines_joinNL l h] at hs
  split at hs
  · exact (List.dropLast_sublist l).subset hs
  · exact hs

theorem mem_splitlines_joinNL_of_mem {l : List String} {s : String}
    (h : ∀ t ∈ l, ∀ c ∈ t.data, isLineBreakCh c = false)
    (hs : s ∈ l) (hne : s ≠ "") : s ∈ pySplitlines (joinNL l) := by
  rw [pySplitlines_joinNL l h]
  split
  · rename_i hlast
    obtain ⟨ys, hys⟩ := List.getLast?_eq_some_iff.mp hlast
    subst hys
    rw [List.dropLast_concat]
    rcases List.mem_append.mp hs with h1 | h2
    · exact h1
    · simp at h2
      exact absurd h2 hne
  · exact hs

theorem pySplitlines_lbfree {r : String} :
    ∀ s ∈ pySplitlines r, ∀ c ∈ s.data, isLineBreakCh c = false := by
  intro s hs c hc
  unfold pySplitlines at hs
  obtain ⟨p, hp, rfl⟩ := List.mem_map.mp hs
  exact splitlinesGo_lbfree r.data false [] (by simp) p hp c hc

theorem pyStrip_lbfree {s : String} (h : ∀ c ∈ s.data, isLineBreakCh c = false) :
    ∀ c ∈ (pyStrip s).data, isLineBreakCh c = false := by
  intro c hc
  exact h c (mem_stripL c s.data hc)

theorem pyStrip_idem (s : String) : pyStrip (pyStrip s) = pyStrip s := by
  unfold pyStrip
  exact String.ext (stripL_idem s.data)

/-- Scanner for the second lazy group of the bullet pattern: finds the first
position at which the closing `':` occurs (the group already holds at least
one character, kept reversed in `acc`) and returns the group together with
the remainder after the `':`. -/
def scanClose (acc : List Char) : List Char → Option (List Char × List Char)
  | [] => none
  | c :: rest =>
    if c = '\'' ∧ rest.head? = some ':' then some (acc.reverse, rest.drop 1)
    else scanClose (c :: acc) rest

/-- Entry point for the second lazy group (`(.+?)':`): the group must have at
least one character, so the first character is consumed unconditionally. -/
def findClose : List Char → Option (List Char × List Char)
  | [] => none
  | c :: rest => scanClose [c] rest

/-- Scanner for the first lazy group of the bullet pattern: finds the first
position at which `' → '` occurs such that the rest of the pattern can still
match (regex backtracking over a lazy group); `acc` holds the group so far,
reversed. -/
def scanSep (acc : List Char) : List Char → Option (List Char × List Char × List Char)
  | [] => none
  | c :: rest =>
    if c = '\'' ∧ preL [' ', '→', ' ', '\''] rest = true then
      match findClose (rest.drop 4) with
      | some (f, rem) => some (acc.reverse, f, rem)
      | none => scanSep (c :: acc) rest
    else scanSep (c :: acc) rest

/-- Model of Python's `re.match` for the bullet pattern
`^- '(.+?)' → '(.+?)':` with lazy groups and backtracking; returns the two
groups and the remainder of the line after the `':`. -/
def parseBulletFull (s : String) : Option (String × String × String) :=
  match s.data with
  | '-' :: ' ' :: '\'' :: c :: rest => 
    match scanSep [c] rest with
    | some (o, f, rem) => some (⟨o⟩, ⟨f⟩, ⟨rem⟩)
    | none => none
  | _ => none

/-- The two groups of the bullet pattern `- '<original>' → '<replacement>': ...`. -/
def parseBullet (s : String) : Option (String × String) :=
  match parseBulletFull s with
  | some (o, f, _) => some (o, f)
  | none => none

/-- Terminal punctuation characters `.?!`. -/
def isTermPunct (c : Char) : Bool := c = '.' ∨ c = '?' ∨ c = '!'

/-- The closing quote/bracket list used by the punctuation-injection rules
(`ensure_final_punctuation_error`, `ensure_sentence_end_punctuation`). -/
def closersWide : List Char := ['"', '\'', '”', '’', '」', '』', '》', '〉', ')', ']']

/-- The shorter closing quote/bracket list used by `drop_false_period_claims`. -/
def closersNarrow : List Char := ['"', '\'', '”', '’', '」', '』', ']']

/-- Python test `s[-1] in ".?!" or (len(s) >= 2 and s[-1] in closers and
s[-2] in ".?!")` on the character list of a string. -/
def endsOkL (closers : List Char) (l : List Char) : Bool :=
  match l.reverse with
  | [] => false
  | last :: rest =>
    if isTermPunct last then true
    else
      match rest with
      | [] => false
      | second :: _ => last ∈ closers ∧ isTermPunct second

/-- One pass of a per-line Python filter loop: the keep function is applied to
every line of `report.splitlines()` and the kept results are joined back with
newlines; the common guard `if not report: return ""` is the empty test. -/
def lineFilter (keep : String → Option String) (report : String) : String :=
  if report = "" then "" else joinNL ((pySplitlines report).filterMap keep)

theorem pySplitlines_empty : pySplitlines "" = [] := rfl

theorem mem_lineFilter {keep : String → Option String}
    (hkeep : ∀ line s, keep line = some s → s = pyStrip line)
    {r s : String} (hs : s ∈ pySplitlines (lineFilter keep r)) :
    ∃ line ∈ pySplitlines r, keep line = some s := by
  unfold lineFilter at hs
  split at hs
  · rw [pySplitlines_empty] at hs
    simp at hs
  · have hlb : ∀ t ∈ (pySplitlines r).filterMap keep, ∀ c ∈ t.data, isLineBreakCh c = false := by
      intro t ht
      obtain ⟨line, hline, hk⟩ := List.mem_filterMap.mp ht
      rw [hkeep line t hk]
      exact pyStrip_lbfree (pySplitlines_lbfree line hline)
    have := mem_of_mem_splitlines_joinNL hlb hs
    exact List.mem_filterMap.mp this

theorem lineFilter_keeps {keep : String → Option String}
    (hkeep : ∀ line s, keep line = some s → s = pyStrip line)
    {r line s : String} (hline : line ∈ pySplitlines r) (hk : keep line = some s)
    (hne : s ≠ "") : s ∈ pySplitlines (lineFilter keep r) := by
  unfold lineFilter
  have hr : r ≠ "" := by
    intro he; subst he
    rw [pySplitlines_empty] at hline
    simp at hline
  rw [if_neg hr]
  have hlb : ∀ t ∈ (pySplitlines r).filterMap keep, ∀ c ∈ t.data, isLineBreakCh c = false := by
    intro t ht
    obtain ⟨line', hline', hk'⟩ := List.mem_filterMap.mp ht
    rw [hkeep line' t hk']
    exact pyStrip_lbfree (pySplitlines_lbfree line' hline')
  exact mem_splitlines_joinNL_of_mem hlb (List.mem_filterMap.mpr ⟨line, hline, hk⟩) hne

theorem lineFilter_drops {keep : String → Option String}
    (hkeep : ∀ line s, keep line = some s → s = pyStrip line)
    {r t : String}
    (hdrop : ∀ line ∈ pySplitlines r, pyStrip line = t → keep line = none) :
    t ∉ pySplitlines (lineFilter keep r) := by
  intro hmem
  obtain ⟨line, hline, hk⟩ := mem_lineFilter hkeep hmem
  have ht := hkeep line t hk
  rw [hdrop line hline ht.symm] at hk
  exact Option.noConfusion hk

/-- `sheet_review.contains_hangul`. -/
def contains_hangul (text : String) : Bool :=
  text.data.any (fun ch => '가' ≤ ch ∧ ch ≤ '힣')

/-- `sheet_review.contains_latin`. -/
def contains_latin (text : String) : Bool :=
  text.data.any (fun ch => ('a' ≤ ch ∧ ch ≤ 'z') ∨ ('A' ≤ ch ∧ ch ≤ 'Z'))

/-- Keep decision of one loop iteration of `sheet_review.remove_self_equal`. -/
def rseKeep (line : String) : Option String :=
  match parseBullet (pyStrip line) with
  | some (o, f) => if pyStrip o = pyStrip f then none else some (pyStrip line)
  | none => some (pyStrip line)

/-- `sheet_review.remove_self_equal`. -/
def remove_self_equal (report : String) : String := lineFilter rseKeep report

/-- The literal strings matched by the escape regexes of
`sheet_review.drop_escape_false`. -/
def escapeFalsePatterns : List String := ["\\\"", "\\'", "\"/\"", "\"/", "/\"", "\\`"]

/-- Keep decision of `sheet_review.drop_escape_false`. -/
def escKeep (line : String) : Option String :=
  if pyStrip line = "" then none
  else if escapeFalsePatterns.any (fun p => pyInStr p (pyStrip line)) then none
  else some (pyStrip line)

/-- `sheet_review.drop_escape_false`. -/
def drop_escape_false (report : String) : String := lineFilter escKeep report

/-- Keep decision of `sheet_review.drop_language_switch`. -/
def dlsKeep (line : String) : Option String :=
  match parseBullet (pyStrip line) with
  | none => some (pyStrip line)
  | some (o, f) =>
    if contains_hangul o = true ∧ contains_latin f = true then none
    else if contains_latin o = true ∧ contains_hangul f = true then none
    else some (pyStrip line)

/-- `sheet_review.drop_language_switch`. -/
def drop_language_switch (report : String) : String := lineFilter dlsKeep report

/-- Keep decision of `sheet_review.drop_large_edits`: length difference of the
two groups after removing spaces, threshold 3. -/
def dleKeep (line : String) : Option String :=
  match parseBullet (pyStrip line) with
  | none => some (pyStrip line)
  | some (o, f) =>
    if 3 ≤ ((((f.data.filter (fun c => c ≠ ' ')).length : Int) -
        ((o.data.filter (fun c => c ≠ ' ')).length : Int)).natAbs) then none
    else some (pyStrip line)

/-- `sheet_review.drop_large_edits`. -/
def drop_large_edits (report : String) : String := lineFilter dleKeep report

/-- The `false_keywords` list of `sheet_review.drop_false_period_claims`. -/
def falsePeriodKeywords : List String :=
  ["Missing end-of-sentence punctuation", "sentence-ending punctuation",
   "마침표가 없습니다", "마침표가 필요", "마침표가 빠져", "문장 끝에 마침표가 없"]

/-- Keep decision of `sheet_review.drop_false_period_claims`: a line carrying
a missing-punctuation keyword is dropped when its own quoted fragment already
ends with terminal punctuation (optionally wrapped in a closing character). -/
def dfpcKeep (line : String) : Option String :=
  if falsePeriodKeywords.any (fun k => pyInStr k (pyStrip line)) = false then
    some (pyStrip line)
  else
    match parseBullet (pyStrip line) with
    | none => some (pyStrip line)
    | some (o, _) =>
      if pyRstrip o = "" then some (pyStrip line)
      else if endsOkL closersNarrow (pyRstrip o).data = true then none
      else some (pyStrip line)

/-- `sheet_review.drop_false_period_claims` (its `text` argument is never read
by the Python body). -/
def drop_false_period_claims (text report : String) : String := lineFilter dfpcKeep report

/-- The keyword list of `sheet_review.drop_punctuation_space_style`. -/
def punctSpaceKeywords : List String :=
  ["Missing space after", "space after punctuation", "space after the punctuation",
   "공백이 필요", "공백을 추가해야", "space after the sentence-ending punctuation mark"]

/-- Keep decision of `sheet_review.drop_punctuation_space_style` (the keyword
test runs on the unstripped line). -/
def dpssKeep (line : String) : Option String :=
  if punctSpaceKeywords.any (fun k => pyInStr k line) then none
  else some (pyStrip line)

/-- `sheet_review.drop_punctuation_space_style`. -/
def drop_punctuation_space_style (report : String) : String := lineFilter dpssKeep report

/-- The alternation `(불필요한 공백|띄어쓰기|공백)` of
`sheet_review.drop_false_whitespace_claims`. -/
def wsClaimKeywords : List String := ["불필요한 공백", "띄어쓰기", "공백"]

/-- The whitespace/zero-width class `[ \t　​‌‍]` of
`sheet_review.drop_false_whitespace_claims`. -/
def wsClassChars : List Char := [' ', '\t', '　', '​', '‌', '‍']

/-- Keep decision of `sheet_review.drop_false_whitespace_claims`: the line is
dropped when the bullet pattern matches, a whitespace-claim keyword occurs
after the `':`, and the quoted fragment has no whitespace character. -/
def dfwcKeep (line : String) : Option String :=
  if pyStrip line = "" then none
  else
    match parseBulletFull (pyStrip line) with
    | none => some (pyStrip line)
    | some (o, _, rest) =>
      if wsClaimKeywords.any (fun k => pyInStr k rest) then
        if o.data.any (fun c => c ∈ wsClassChars) then some (pyStrip line) else none
      else some (pyStrip line)

/-- `sheet_review.drop_false_whitespace_claims` (its `text` argument is never
read by the Python body). -/
def drop_false_whitespace_claims (text report : String) : String := lineFilter dfwcKeep report

/-- The normalized source of `sheet_review.drop_lines_not_in_source`: the
sequential `.replace(" ", "").replace("\n", "").replace("​", "")` is one
character filter, then `.strip()`. -/
def normalizedSrc (source_text : String) : String :=
  pyStrip ⟨source_text.data.filter (fun c => ¬ (c = ' ' ∨ c = '\n' ∨ c = '​'))⟩

/-- Keep decision of `sheet_review.drop_lines_not_in_source`. -/
def dlnisKeep (source_text : String) (line : String) : Option String :=
  if pyStrip line = "" then none
  else
    match parseBullet (pyStrip line) with
    | none => some (pyStrip line)
    | some (o, _) =>
      if pyInStr o source_text = true then some (pyStrip line)
      else if pyInStr ⟨o.data.filter (fun c => c ≠ ' ')⟩ (normalizedSrc source_text) = true then
        some (pyStrip line)
      else none

/-- `sheet_review.drop_lines_not_in_source`. -/
def drop_lines_not_in_source (source_text report : String) : String :=
  lineFilter (dlnisKeep source_text) report

/-- Keep decision of `sheet_review.clean_self_equal_corrections` (the variant
of the self-equal purge that skips blank lines). -/
def csecKeep (line : String) : Option String :=
  if pyStrip line = "" then none
  else
    match parseBullet (pyStrip line) with
    | none => some (pyStrip line)
    | some (o, f) => if pyStrip o = pyStrip f then none else some (pyStrip line)

/-- `sheet_review.clean_self_equal_corrections`. -/
def clean_self_equal_corrections (report : String) : String := lineFilter csecKeep report

/-- Plain-bucket keep decision of `sheet_review.split_report_by_source`. -/
def splitKeepPlain (plain_text md_text : String) (line : String) : Option String :=
  if pyStrip line = "" then none
  else
    match parseBullet (pyStrip line) with
    | none => some (pyStrip line)
    | some (o, _) =>
      if pyInStr o plain_text = true ∧ pyInStr o md_text = false then some (pyStrip line)
      else if pyInStr o md_text = true ∧ pyInStr o plain_text = false then none
      else some (pyStrip line)

/-- Markdown-bucket keep decision of `sheet_review.split_report_by_source`. -/
def splitKeepMd (plain_text md_text : String) (line : String) : Option String :=
  if pyStrip line = "" then none
  else
    match parseBullet (pyStrip line) with
    | none => none
    | some (o, _) =>
      if pyInStr o plain_text = true ∧ pyInStr o md_text = false then none
      else if pyInStr o md_text = true ∧ pyInStr o plain_text = false then some (pyStrip line)
      else none

/-- `sheet_review.split_report_by_source`: the single Python loop appending to
two lists is modelled as two per-line passes with complementary keep
decisions. -/
def split_report_by_source (report plain_text md_text : String) : String × String :=
  (lineFilter (splitKeepPlain plain_text md_text) report,
   lineFilter (splitKeepMd plain_text md_text) report)

/-- `sheet_review.ensure_final_punctuation_error`. -/
def ensure_final_punctuation_error (text report : String) : String :=
  if pyStrip text = "" then report
  else
    let s := pyRstrip text
    if s = "" then report
    else if endsOkL closersWide s.data = true then report
    else if report ≠ "" ∧ (pyInStr "마침표" report = true ∨ pyInStr "문장부호" report = true) then
      report
    else
      let line := "- 문단 마지막 문장 끝에 마침표(또는 물음표, 느낌표)가 빠져 있으므로 적절한 문장부호를 추가해야 합니다."
      if report ≠ "" then pyRstrip report ++ "\n" ++ line else line

/-- Sentence boundary scanner for `re.split(r'(?<=[.!?])\s+', text)`: a
whitespace run is a split point exactly when the character before it is one
of `.!?`; `inRun` is true while the matched run is being consumed. -/
def sentSplitGo (inRun : Bool) (cur : List Char) : List Char → List (List Char)
  | [] => [cur.reverse]
  | c :: rest =>
    if inRun = true then
      if isPySpace c = true then sentSplitGo true [] rest
      else sentSplitGo false [c] rest
    else
      if isPySpace c = true ∧ (match cur with | p :: _ => isTermPunct p | [] => false) = true then
        cur.reverse :: sentSplitGo true [] rest
      else sentSplitGo false (c :: cur) rest

/-- Python `re.split(r'(?<=[.!?])\s+', text)`. -/
def pySentenceSplit (text : String) : List String :=
  (sentSplitGo false [] text.data).map (fun l => ⟨l⟩)

/-- `sheet_review.ensure_sentence_end_punctuation` (this revision appends its
summary line without any duplicate check). -/
def ensure_sentence_end_punctuation (text report : String) : String :=
  if pyStrip text = "" then report
  else
    let sentences := pySentenceSplit (pyStrip text)
    let missing := (sentences.map pyStrip).filter
      (fun s => s ≠ "" ∧ endsOkL closersWide s.data = false)
    if missing = [] then report
    else
      let line := "- 문장 끝에 종결부호(., ?, !)가 누락된 문장이 있습니다."
      if report ≠ "" then pyRstrip report ++ "\n" ++ line else line

/-- `app.ensure_final_punctuation_error` (the `app.py` revision: same rule,
different advisory line and duplicate-check phrases). -/
def app_ensure_final_punctuation_error (text report : String) : String :=
  if pyStrip text = "" then report
  else
    let s := pyRstrip text
    if s = "" then report
    else if endsOkL closersWide s.data = true then report
    else if report ≠ "" ∧ (pyInStr "마지막 문장에 마침표" report = true ∨ pyInStr "문장 끝에 마침표가 없" report = true) then
      report
    else
      let line := "- '수 있었다' → '수 있었다.': 마지막 문장에 마침표가 없습니다."
      if report ≠ "" then pyRstrip report ++ "\n" ++ line else line

/-- Duplicate-check phrases of `app.ensure_sentence_end_punctuation`. -/
def appSentenceDupKeys : List String :=
  ["마지막 문장에 마침표", "종결부호", "문장 끝에 마침표가 없", "마침표가 없습니다"]

/-- `app.ensure_sentence_end_punctuation` (the `app.py` revision: appends the
summary line only when no equivalent phrase is present yet). -/
def app_ensure_sentence_end_punctuation (text report : String) : String :=
  if pyStrip text = "" then report
  else
    let sentences := pySentenceSplit (pyStrip text)
    let missing := (sentences.map pyStrip).filter
      (fun s => s ≠ "" ∧ endsOkL closersWide s.data = false)
    if missing = [] then report
    else if report ≠ "" ∧ appSentenceDupKeys.any (fun k => pyInStr k report) then report
    else
      let line := "- 문장 끝에 종결부호(., ?, !)가 누락된 문장이 있습니다."
      if report ≠ "" then pyRstrip report ++ "\n" ++ line else line

/-- First-occurrence duplicate removal (the `seen` loop of
`dedup_korean_bullet_lines`). -/
def dedupFirstGo (seen : List String) : List String → List String
  | [] => []
  | l :: rest =>
    if l ∈ seen then dedupFirstGo seen rest else l :: dedupFirstGo (l :: seen) rest

/-- The message group of the dedup pattern `^- '(.+?)' → '(.+?)':\s*(.+)$`:
the greedy `\s*` backtracks by one character when the remainder after the
colon is pure whitespace, and the whole match fails when it is empty. -/
def bulletMsg (rest : String) : Option String :=
  if rest.data = [] then none
  else
    let ws := rest.data.takeWhile isPySpace
    if ws.length = rest.data.length then some ⟨rest.data.drop (rest.data.length - 1)⟩
    else some ⟨rest.data.dropWhile isPySpace⟩

/-- The `orig` group of a line of `dedup_korean_bullet_lines` that parses as a
bullet and whose message mentions `불필요한 마침표`. -/
def punctDupOrig (l : String) : Option String :=
  match parseBulletFull l with
  | none => none
  | some (o, _, rest) =>
    match bulletMsg rest with
    | none => none
    | some msg => if pyInStr "불필요한 마침표" msg = true then some o else none

/-- Drop decision of the second pass of `dedup_korean_bullet_lines`: an entry
is dropped when some entry of the same `불필요한 마침표` kind has a strictly
longer `orig` containing this one.  The Python loop compares entries by index;
`uniq` holds no duplicate lines and no entry passes the strict-length test
against itself, so comparing by line value is equivalent. -/
def punctDupDrop (uniq : List String) (l : String) : Bool :=
  match punctDupOrig l with
  | none => false
  | some o =>
    uniq.any (fun l2 =>
      match punctDupOrig l2 with
      | none => false
      | some o2 => pyInStr o o2 && decide (o.length < o2.length))

/-- The two deduplication passes of `dedup_korean_bullet_lines` on the
non-empty stripped lines: exact-duplicate removal, then the
`불필요한 마침표` subsumption drop. -/
def dedupCore (lines : List String) : List String :=
  (dedupFirstGo [] lines).filter
    (fun l => punctDupDrop (dedupFirstGo [] lines) l = false)

/-- `sheet_review.dedup_korean_bullet_lines` (the `app.py` revision has the
same logic line for line). -/
def dedup_korean_bullet_lines (report : String) : String :=
  if report = "" then ""
  else
    let lines := ((pySplitlines report).map pyStrip).filter (fun l => l ≠ "")
    if lines = [] then ""
    else joinNL (dedupCore lines)

/-- `sheet_review.sanitize_report`: the fixed chain of report filters. -/
def sanitize_report (original_text report : String) : String :=
  if report = "" then ""
  else
    let r1 := remove_self_equal report
    let r2 := drop_escape_false r1
    let r3 := drop_language_switch r2
    let r4 := drop_large_edits r3
    let r5 := drop_false_period_claims original_text r4
    let r6 := drop_punctuation_space_style r5
    let r7 := drop_false_whitespace_claims original_text r6
    let r8 := drop_lines_not_in_source original_text r7
    pyStrip r8


theorem rseKeep_strip : ∀ line s, rseKeep line = some s → s = pyStrip line := by
  intro line s h
  unfold rseKeep at h
  repeat' split at h
  all_goals first
  | exact Option.noConfusion h
  | exact (Option.some.inj h).symm

theorem dlsKeep_strip : ∀ line s, dlsKeep line = some s → s = pyStrip line := by
  intro line s h
  unfold dlsKeep at h
  repeat' split at h
  all_goals first
  | exact Option.noConfusion h
  | exact (Option.some.inj h).symm

theorem escKeep_strip : ∀ line s, escKeep line = some s → s = pyStrip line := by
  intro line s h
  unfold escKeep at h
  repeat' split at h
  all_goals first
  | exact Option.noConfusion h
  | exact (Option.some.inj h).symm

theorem dleKeep_strip : ∀ line s, dleKeep line = some s → s = pyStrip line := by
  intro line s h
  unfold dleKeep at h
  repeat' split at h
  all_goals first
  | exact Option.noConfusion h
  | exact (Option.some.inj h).symm

theorem dfpcKeep_strip : ∀ line s, dfpcKeep line = some s → s = pyStrip line := by
  intro line s h
  unfold dfpcKeep at h
  repeat' split at h
  all_goals first
  | exact Option.noConfusion h
  | exact (Option.some.inj h).symm

theorem dpssKeep_strip : ∀ line s, dpssKeep line = some s → s = pyStrip line := by
  intro line s h
  unfold dpssKeep at h
  repeat' split at h
  all_goals first
  | exact Option.noConfusion h
  | exact (Option.some.inj h).symm

theorem dfwcKeep_strip : ∀ line s, dfwcKeep line = some s → s = pyStrip line := by
  intro line s h
  unfold dfwcKeep at h
  repeat' split at h
  all_goals first
  | exact Option.noConfusion h
  | exact (Option.some.inj h).symm

theorem dlnisKeep_strip (src : String) :
    ∀ line s, dlnisKeep src line = some s → s = pyStrip line := by
  intro line s h
  unfold dlnisKeep at h
  repeat' split at h
  all_goals first
  | exact Option.noConfusion h
  | exact (Option.some.inj h).symm

theorem csecKeep_strip : ∀ line s, csecKeep line = some s → s = pyStrip line := by
  intro line s h
  unfold csecKeep at h
  repeat' split at h
  all_goals first
  | exact Option.noConfusion h
  | exact (Option.some.inj h).symm

theorem splitKeepPlain_strip (pt mt : String) :
    ∀ line s, splitKeepPlain pt mt line = some s → s = pyStrip line := by
  intro line s h
  unfold splitKeepPlain at h
  repeat' split at h
  all_goals first
  | exact Option.noConfusion h
  | exact (Option.some.inj h).symm

theorem splitKeepMd_strip (pt mt : String) :
    ∀ line s, splitKeepMd pt mt line = some s → s = pyStrip line := by
  intro line s h
  unfold splitKeepMd at h
  repeat' split at h
  all_goals first
  | exact Option.noConfusion h
  | exact (Option.some.inj h).symm

/-- C7.  Self-identity purge: after `remove_self_equal` no surviving line of
the bullet pattern has equal original and replacement after trimming, and
every line whose trimmed original equals its trimmed replacement is dropped. -/
theorem self_identity_purge :
    (∀ r s, s ∈ pySplitlines (remove_self_equal r) →
      ∀ o f, parseBullet s = some (o, f) → pyStrip o ≠ pyStrip f) ∧
    (∀ r line, line ∈ pySplitlines r →
      ∀ o f, parseBullet (pyStrip line) = some (o, f) → pyStrip o = pyStrip f →
        pyStrip line ∉ pySplitlines (remove_self_equal r)) := by
  constructor
  · intro r s hs o f hp
    obtain ⟨line, hline, hk⟩ := mem_lineFilter rseKeep_strip hs
    have hs' : s = pyStrip line := rseKeep_strip _ _ hk
    subst hs'
    unfold rseKeep at hk
    rw [hp] at hk
    simp only [] at hk
    intro heq
    rw [if_pos heq] at hk
    exact Option.noConfusion hk
  · intro r line hline o f hp heq
    apply lineFilter_drops rseKeep_strip
    intro line2 hline2 hstrip
    unfold rseKeep
    rw [hstrip, hp]
    simp only []
    rw [if_pos heq]

theorem self_identity_purge_witness :
    pyStrip "- ' a ' → 'a': x" ∉ pySplitlines (remove_self_equal "- ' a ' → 'a': x") :=
  self_identity_purge.2 "- ' a ' → 'a': x" "- ' a ' → 'a': x" (by decide)
    " a " "a" (by decide) (by decide)

/-- C6.  Cross-language-correction purge: `drop_language_switch` drops every
bullet line whose original and replacement mix Hangul and Latin scripts in
opposite directions, keeps the rest, and in particular removes
`'사과' → 'apple'` while retaining `'사과' → '사과를'`. -/
theorem cross_language_purge :
    (∀ r s, s ∈ pySplitlines (drop_language_switch r) →
      ∀ o f, parseBullet s = some (o, f) →
        ¬ ((contains_hangul o = true ∧ contains_latin f = true) ∨
           (contains_latin o = true ∧ contains_hangul f = true))) ∧
    (∀ r line, line ∈ pySplitlines r →
      ∀ o f, parseBullet (pyStrip line) = some (o, f) →
        ((contains_hangul o = true ∧ contains_latin f = true) ∨
         (contains_latin o = true ∧ contains_hangul f = true)) →
        pyStrip line ∉ pySplitlines (drop_language_switch r)) ∧
    drop_language_switch "- '사과' → 'apple': 설명" = "" ∧
    drop_language_switch "- '사과' → '사과를': 설명" = "- '사과' → '사과를': 설명" := by
  refine ⟨?_, ?_, by decide, by decide⟩
  · intro r s hs o f hp
    obtain ⟨line, hline, hk⟩ := mem_lineFilter dlsKeep_strip hs
    have hs' : s = pyStrip line := dlsKeep_strip _ _ hk
    subst hs'
    unfold dlsKeep at hk
    rw [hp] at hk
    simp only [] at hk
    intro hcross
    rcases hcross with ⟨h1, h2⟩ | ⟨h1, h2⟩
    · rw [if_pos ⟨h1, h2⟩] at hk
      exact Option.noConfusion hk
    · split at hk
      · exact Option.noConfusion hk
      · rw [if_pos ⟨h1, h2⟩] at hk
        exact Option.noConfusion hk
  · intro r line hline o f hp hcross
    apply lineFilter_drops dlsKeep_strip
    intro line2 hline2 hstrip
    unfold dlsKeep
    rw [hstrip, hp]
    simp only []
    rcases hcross with ⟨h1, h2⟩ | ⟨h1, h2⟩
    · rw [if_pos ⟨h1, h2⟩]
    · split
      · rfl
      · rw [if_pos ⟨h1, h2⟩]

theorem cross_language_purge_witness :
    pyStrip "- '사과' → 'apple': 설명" ∉
      pySplitlines (drop_language_switch "- '사과' → 'apple': 설명") :=
  cross_language_purge.2.1 "- '사과' → 'apple': 설명" "- '사과' → 'apple': 설명"
    (by decide) "사과" "apple" (by decide) (Or.inl ⟨by decide, by decide⟩)

/-- Removal of every whitespace or zero-width-space character, the
normalization quantified over by the grounding property. -/
def stripWsZw (s : String) : String :=
  ⟨s.data.filter (fun c => !(isPySpace c || c == '​'))⟩

theorem stripWsZw_filter_nospace (l : List Char) :
    (l.filter (fun c => decide (c ≠ ' '))).filter (fun c => !(isPySpace c || c == '​')) =
      l.filter (fun c => !(isPySpace c || c == '​')) := by
  rw [List.filter_filter]
  apply List.filter_congr
  intro a _
  by_cases h : a = ' '
  · subst h; decide
  · simp [h]

theorem stripWsZw_filter_norm (l : List Char) :
    (l.filter (fun c => decide (¬ (c = ' ' ∨ c = '\n' ∨ c = '​')))).filter
        (fun c => !(isPySpace c || c == '​')) =
      l.filter (fun c => !(isPySpace c || c == '​')) := by
  rw [List.filter_filter]
  apply List.filter_congr
  intro a _
  by_cases h1 : a = ' '
  · subst h1; decide
  · by_cases h2 : a = '\n'
    · subst h2; decide
    · by_cases h3 : a = '​'
      · subst h3; decide
      · simp [h1, h2, h3]

/-- C1.  Grounding soundness: after `drop_lines_not_in_source` every
surviving line matching the bullet pattern quotes an original fragment that
is a literal substring of the source text, exactly or after removing all
whitespace/zero-width characters from both sides; lines not matching the
bullet pattern pass through unfiltered. -/
theorem grounding_soundness :
    (∀ src r s, s ∈ pySplitlines (drop_lines_not_in_source src r) →
      ∀ o f, parseBullet s = some (o, f) →
        o.data <:+: src.data ∨ (stripWsZw o).data <:+: (stripWsZw src).data) ∧
    (∀ src r line, line ∈ pySplitlines r → pyStrip line ≠ "" →
      parseBullet (pyStrip line) = none →
      pyStrip line ∈ pySplitlines (drop_lines_not_in_source src r)) := by
  constructor
  · intro src r s hs o f hp
    obtain ⟨line, hline, hk⟩ := mem_lineFilter (dlnisKeep_strip src) hs
    have hs' : s = pyStrip line := dlnisKeep_strip src _ _ hk
    subst hs'
    unfold dlnisKeep at hk
    split at hk
    · exact Option.noConfusion hk
    · rw [hp] at hk
      simp only [] at hk
      by_cases h1 : pyInStr o src = true
      · exact Or.inl ((pyInStr_iff o src).mp h1)
      · rw [if_neg h1] at hk
        by_cases h2 : pyInStr ⟨o.data.filter (fun c => c ≠ ' ')⟩ (normalizedSrc src) = true
        · refine Or.inr ?_
          have hinf : o.data.filter (fun c => decide (c ≠ ' ')) <:+: (normalizedSrc src).data :=
            (pyInStr_iff _ _).mp h2
          have hinf2 : (normalizedSrc src).data <:+:
              src.data.filter (fun c => decide (¬ (c = ' ' ∨ c = '\n' ∨ c = '​'))) :=
            stripL_infix _
          have hinf3 := (hinf.trans hinf2).filter (fun c => !(isPySpace c || c == '​'))
          rw [stripWsZw_filter_nospace, stripWsZw_filter_norm] at hinf3
          exact hinf3
        · rw [if_neg h2] at hk
          exact Option.noConfusion hk
  · intro src r line hline hne hp
    refine lineFilter_keeps (dlnisKeep_strip src) hline ?_ hne
    unfold dlnisKeep
    rw [if_neg hne, hp]

theorem grounding_soundness_witness :
    ("가나".data <:+: "가 나".data ∨ (stripWsZw "가나").data <:+: (stripWsZw "가 나").data) ∧
    pyStrip "free line" ∈ pySplitlines (drop_lines_not_in_source "가 나" "free line") :=
  ⟨grounding_soundness.1 "가 나" "- '가나' → 'x': a" "- '가나' → 'x': a" (by decide)
      "가나" "x" (by decide),
   grounding_soundness.2 "가 나" "free line" "free line" (by decide) (by decide) (by decide)⟩

/-- Definition following the spec's words for the suppression condition of
§4.4: the last non-whitespace run of the source text already ends with
terminal punctuation, optionally wrapped in one closing quote/bracket. -/
def specLastRunEndsTerminal (text : String) : Bool :=
  endsOkL closersWide (pyRstrip text).data

/-- C5 counterexample.  The spec's suppression condition holds for the source
`"끝."`, the line asserts a missing terminal punctuation and matches the
bullet pattern, yet `drop_false_period_claims` keeps it: the code inspects
the quoted fragment, not the source text. -/
theorem false_period_claim_cex :
    specLastRunEndsTerminal "끝." = true ∧
    falsePeriodKeywords.any (fun k => pyInStr k "- '끝' → '끝.': 마침표가 없습니다") = true ∧
    parseBullet "- '끝' → '끝.': 마침표가 없습니다" = some ("끝", "끝.") ∧
    drop_false_period_claims "끝." "- '끝' → '끝.': 마침표가 없습니다" =
      "- '끝' → '끝.': 마침표가 없습니다" := by
  refine ⟨by decide, by decide, by decide, by decide⟩

/-- C5 amended.  Fragment-based suppression: a finding line that asserts a
missing terminal punctuation is removed exactly when its own right-trimmed
quoted fragment already ends with terminal punctuation (optionally wrapped in
one closing quote/bracket); the source text's ending is not consulted.  In
particular a finding quoting `"끝."` is removed. -/
theorem false_period_fragment_suppression :
    (∀ text r s, s ∈ pySplitlines (drop_false_period_claims text r) →
      falsePeriodKeywords.any (fun k => pyInStr k s) = true →
      ∀ o f, parseBullet s = some (o, f) →
        endsOkL closersNarrow (pyRstrip o).data = false) ∧
    (∀ text r line, line ∈ pySplitlines r →
      falsePeriodKeywords.any (fun k => pyInStr k (pyStrip line)) = true →
      ∀ o f, parseBullet (pyStrip line) = some (o, f) →
        endsOkL closersNarrow (pyRstrip o).data = true →
        pyStrip line ∉ pySplitlines (drop_false_period_claims text r)) ∧
    drop_false_period_claims "끝." "- '끝.' → '끝': 마침표가 없습니다" = "" := by
  refine ⟨?_, ?_, by decide⟩
  · intro text r s hs hkw o f hp
    obtain ⟨line, hline, hk⟩ := mem_lineFilter dfpcKeep_strip hs
    have hs' : s = pyStrip line := dfpcKeep_strip _ _ hk
    subst hs'
    unfold dfpcKeep at hk
    rw [if_neg (by rw [hkw]; simp), hp] at hk
    simp only [] at hk
    by_cases ho : pyRstrip o = ""
    · rw [ho]
      decide
    · rw [if_neg ho] at hk
      by_cases hend : endsOkL closersNarrow (pyRstrip o).data = true
      · rw [if_pos hend] at hk
        exact Option.noConfusion hk
      · exact Bool.eq_false_iff.mpr hend
  · intro text r line hline hkw o f hp hend
    apply lineFilter_drops dfpcKeep_strip
    intro line2 hline2 hstrip
    unfold dfpcKeep
    rw [hstrip, if_neg (by rw [hkw]; simp), hp]
    simp only []
    have ho : pyRstrip o ≠ "" := by
      intro he
      rw [he] at hend
      exact Bool.noConfusion hend
    rw [if_neg ho, if_pos hend]

theorem false_period_fragment_suppression_witness :
    pyStrip "- '끝.' → '끝': 마침표가 없습니다" ∉
      pySplitlines (drop_false_period_claims "끝." "- '끝.' → '끝': 마침표가 없습니다") :=
  false_period_fragment_suppression.2.1 "끝." "- '끝.' → '끝': 마침표가 없습니다"
    "- '끝.' → '끝': 마침표가 없습니다" (by decide) (by decide) "끝." "끝" (by decide) (by decide)

/-- C9.  Source split routing: `split_report_by_source` sends a bullet line
whose fragment occurs only in the plain text to the plain bucket, one whose
fragment occurs only in the markdown text to the markdown bucket, one whose
fragment occurs in both or in neither to the plain bucket, and every
non-bullet line to the plain bucket; in particular, with `plain = "A B"` and
`markdown = "A B C"` a finding quoting `"C"` routes to the markdown bucket
and a finding quoting `"A"` routes to the plain bucket. -/
theorem source_split_routing :
    (∀ r pt mt line, line ∈ pySplitlines r → pyStrip line ≠ "" →
      (∀ o f, parseBullet (pyStrip line) = some (o, f) →
        ((pyInStr o pt = true ∧ pyInStr o mt = false →
            pyStrip line ∈ pySplitlines (split_report_by_source r pt mt).1) ∧
         (pyInStr o mt = true ∧ pyInStr o pt = false →
            pyStrip line ∈ pySplitlines (split_report_by_source r pt mt).2) ∧
         (pyInStr o pt = pyInStr o mt →
            pyStrip line ∈ pySplitlines (split_report_by_source r pt mt).1))) ∧
      (parseBullet (pyStrip line) = none →
        pyStrip line ∈ pySplitlines (split_report_by_source r pt mt).1)) ∧
    split_report_by_source "- 'C' → 'c': y" "A B" "A B C" = ("", "- 'C' → 'c': y") ∧
    split_report_by_source "- 'A' → 'a': x" "A B" "A B C" = ("- 'A' → 'a': x", "") := by
  refine ⟨?_, by decide, by decide⟩
  intro r pt mt line hline hne
  constructor
  · intro o f hp
    refine ⟨?_, ?_, ?_⟩
    · intro ⟨h1, h2⟩
      refine lineFilter_keeps (splitKeepPlain_strip pt mt) hline ?_ hne
      unfold splitKeepPlain
      rw [if_neg hne, hp]
      simp only []
      rw [if_pos ⟨h1, h2⟩]
    · intro ⟨h1, h2⟩
      refine lineFilter_keeps (splitKeepMd_strip pt mt) hline ?_ hne
      unfold splitKeepMd
      rw [if_neg hne, hp]
      simp only []
      rw [if_neg (by simp [h1, h2]), if_pos ⟨h1, h2⟩]
    · intro heq
      refine lineFilter_keeps (splitKeepPlain_strip pt mt) hline ?_ hne
      unfold splitKeepPlain
      rw [if_neg hne, hp]
      simp only []
      rcases hpt : pyInStr o pt with _ | _
      · rw [hpt] at heq
        rw [if_neg (by simp [hpt]), if_neg (by simp [← heq])]
      · rw [hpt] at heq
        rw [if_neg (by simp [← heq]), if_neg (by simp [hpt])]
  · intro hp
    refine lineFilter_keeps (splitKeepPlain_strip pt mt) hline ?_ hne
    unfold splitKeepPlain
    rw [if_neg hne, hp]

theorem source_split_routing_witness :
    pyStrip "- 'C' → 'c': y" ∈
      pySplitlines (split_report_by_source "- 'C' → 'c': y" "A B" "A B C").2 :=
  (((source_split_routing.1 "- 'C' → 'c': y" "A B" "A B C" "- 'C' → 'c': y"
      (by decide) (by decide)).1 "C" "c" (by decide)).2.1) ⟨by decide, by decide⟩

/-- C4.  Punctuation injection: on the source `"이것은 문장"` (no terminal
punctuation) and an empty report, the paragraph-level rule followed by the
sentence-level rule produces exactly one synthetic advisory line about the
missing terminal punctuation, and applying the same two rules again to that
output returns it unchanged. -/
theorem punctuation_injection_once :
    app_ensure_sentence_end_punctuation "이것은 문장"
        (app_ensure_final_punctuation_error "이것은 문장" "") =
      "- '수 있었다' → '수 있었다.': 마지막 문장에 마침표가 없습니다." ∧
    (pySplitlines (app_ensure_sentence_end_punctuation "이것은 문장"
        (app_ensure_final_punctuation_error "이것은 문장" ""))).length = 1 ∧
    app_ensure_sentence_end_punctuation "이것은 문장"
        (app_ensure_final_punctuation_error "이것은 문장"
          (app_ensure_sentence_end_punctuation "이것은 문장"
            (app_ensure_final_punctuation_error "이것은 문장" ""))) =
      app_ensure_sentence_end_punctuation "이것은 문장"
        (app_ensure_final_punctuation_error "이것은 문장" "") := by
  refine ⟨by decide, by decide, by decide⟩

theorem dedupFirstGo_subset : ∀ (l : List String) (seen : List String),
    dedupFirstGo seen l ⊆ l := by
  intro l
  induction l with
  | nil => intro seen x hx; exact absurd hx (by simp [dedupFirstGo])
  | cons a rest ih =>
    intro seen x hx
    unfold dedupFirstGo at hx
    split at hx
    · exact List.mem_cons_of_mem a (ih seen hx)
    · rcases List.mem_cons.mp hx with h1 | h2
      · exact h1 ▸ List.mem_cons_self a rest
      · exact List.mem_cons_of_mem a (ih (a :: seen) h2)

theorem dedupFirstGo_nodup : ∀ (l : List String) (seen : List String),
    (dedupFirstGo seen l).Nodup ∧ ∀ x ∈ dedupFirstGo seen l, x ∉ seen := by
  intro l
  induction l with
  | nil => intro seen; simp [dedupFirstGo]
  | cons a rest ih =>
    intro seen
    unfold dedupFirstGo
    split
    · exact ih seen
    · rename_i hseen
      obtain ⟨ihnd, ihout⟩ := ih (a :: seen)
      constructor
      · refine List.nodup_cons.mpr ⟨?_, ihnd⟩
        intro hmem
        exact (ihout a hmem) (List.mem_cons_self a seen)
      · intro x hx
        rcases List.mem_cons.mp hx with h1 | h2
        · exact h1 ▸ hseen
        · intro hxs
          exact (ihout x h2) (List.mem_cons_of_mem a hxs)

theorem dedupFirstGo_of_nodup : ∀ (l : List String) (seen : List String),
    l.Nodup → (∀ x ∈ l, x ∉ seen) → dedupFirstGo seen l = l := by
  intro l
  induction l with
  | nil => intro seen _ _; rfl
  | cons a rest ih =>
    intro seen hnd hout
    unfold dedupFirstGo
    rw [if_neg (hout a (List.mem_cons_self a rest))]
    congr 1
    refine ih (a :: seen) (List.nodup_cons.mp hnd).2 ?_
    intro x hx hxs
    rcases List.mem_cons.mp hxs with h1 | h2
    · exact (List.nodup_cons.mp hnd).1 (h1 ▸ hx)
    · exact hout x (List.mem_cons_of_mem a hx) h2

theorem punctDupDrop_mono {K U : List String} (hsub : K ⊆ U) (l : String)
    (h : punctDupDrop K l = true) : punctDupDrop U l = true := by
  unfold punctDupDrop at h ⊢
  rcases ho : punctDupOrig l with _ | o <;> rw [ho] at h
  · exact absurd h (by simp)
  · simp only []
    obtain ⟨x, hxK, hxp⟩ := List.any_eq_true.mp h
    exact List.any_eq_true.mpr ⟨x, hsub hxK, hxp⟩

theorem joinNL_ne_empty {K : List String} (hne : K ≠ []) (hnemp : ∀ x ∈ K, x ≠ "") :
    joinNL K ≠ "" := by
  cases K with
  | nil => exact absurd rfl hne
  | cons a rest =>
    cases rest with
    | nil =>
      intro h
      exact hnemp a (by simp) (by simpa [joinNL, joinNLL] using h)
    | cons b rest2 =>
      intro h
      have hdata : (joinNL (a :: b :: rest2)).data = a.data ++ '\n' :: joinNLL (List.map String.data (b :: rest2)) := by
        simp [joinNL, joinNLL]
      rw [h] at hdata
      have : ([] : List Char) = a.data ++ '\n' :: joinNLL (List.map String.data (b :: rest2)) := hdata
      exact absurd this.symm (by simp)

theorem dedup_join (K : List String)
    (hlb : ∀ x ∈ K, ∀ c ∈ x.data, isLineBreakCh c = false)
    (hstrip : ∀ x ∈ K, pyStrip x = x)
    (hnemp : ∀ x ∈ K, x ≠ "")
    (hnd : K.Nodup)
    (hdrop : ∀ x ∈ K, punctDupDrop K x = false) :
    dedup_korean_bullet_lines (joinNL K) = joinNL K := by
  by_cases hK : K = []
  · subst hK; rfl
  · have hne : joinNL K ≠ "" := joinNL_ne_empty hK hnemp
    unfold dedup_korean_bullet_lines
    rw [if_neg hne]
    have hsplit : pySplitlines (joinNL K) = K := by
      rw [pySplitlines_joinNL K hlb]
      rw [if_neg ?_]
      intro hlast
      obtain ⟨ys, hys⟩ := List.getLast?_eq_some_iff.mp hlast
      exact hnemp "" (hys ▸ (by simp)) rfl
    have hmap : K.map pyStrip = K := by
      rw [show K.map pyStrip = K.map id from List.map_congr_left hstrip, List.map_id]
    have hfilter : K.filter (fun l => l ≠ "") = K :=
      List.filter_eq_self.mpr (fun a ha => by simpa using hnemp a ha)
    have hlines : ((pySplitlines (joinNL K)).map pyStrip).filter (fun l => l ≠ "") = K := by
      rw [hsplit, hmap, hfilter]
    simp only [hlines]
    rw [if_neg hK]
    have hfirst : dedupFirstGo [] K = K := dedupFirstGo_of_nodup K [] hnd (by simp)
    have hcore : dedupCore K = K := by
      unfold dedupCore
      rw [hfirst]
      refine List.filter_eq_self.mpr ?_
      intro a ha
      simpa using hdrop a ha
    rw [hcore]

/-- C8.  Idempotence of deduplication: applying
`dedup_korean_bullet_lines` twice yields the same output as applying it
once, for every report string. -/
theorem dedup_idempotent (r : String) :
    dedup_korean_bullet_lines (dedup_korean_bullet_lines r) =
      dedup_korean_bullet_lines r := by
  by_cases hr : r = ""
  · subst hr; rfl
  · have h1 : dedup_korean_bullet_lines r =
        (if ((pySplitlines r).map pyStrip).filter (fun l => l ≠ "") = [] then ""
         else joinNL (dedupCore (((pySplitlines r).map pyStrip).filter (fun l => l ≠ "")))) := by
      unfold dedup_korean_bullet_lines
      rw [if_neg hr]
    by_cases hl : ((pySplitlines r).map pyStrip).filter (fun l => l ≠ "") = []
    · rw [h1, if_pos hl]
      rfl
    · rw [h1, if_neg hl]
      set L := ((pySplitlines r).map pyStrip).filter (fun l => l ≠ "") with hL
      have hmemL : ∀ x ∈ L, x ≠ "" ∧ pyStrip x = x ∧ ∀ c ∈ x.data, isLineBreakCh c = false := by
        intro x hx
        rw [hL] at hx
        have hxne : x ≠ "" := by simpa using (List.mem_filter.mp hx).2
        obtain ⟨piece, hpiece, hpx⟩ := List.mem_map.mp (List.mem_filter.mp hx).1
        refine ⟨hxne, ?_, ?_⟩
        · rw [← hpx]; exact pyStrip_idem piece
        · rw [← hpx]
          exact pyStrip_lbfree (pySplitlines_lbfree piece hpiece)
      have hKsubL : dedupCore L ⊆ L := by
        intro x hx
        exact dedupFirstGo_subset L [] ((List.filter_sublist _).subset hx)
      refine dedup_join (dedupCore L) ?_ ?_ ?_ ?_ ?_
      · intro x hx; exact (hmemL x (hKsubL hx)).2.2
      · intro x hx; exact (hmemL x (hKsubL hx)).2.1
      · intro x hx; exact (hmemL x (hKsubL hx)).1
      · exact (dedupFirstGo_nodup L []).1.filter _
      · intro x hx
        have hxU : punctDupDrop (dedupFirstGo [] L) x = false := by
          simpa using (List.mem_filter.mp hx).2
        have hKU : dedupCore L ⊆ dedupFirstGo [] L := (List.filter_sublist _).subset
        rcases hKx : punctDupDrop (dedupCore L) x with _ | _
        · rfl
        · exact absurd (punctDupDrop_mono hKU x hKx) (by simp [hxU])

/-- Values decodable from the model's JSON reply (`json.loads` output):
null, booleans, integers, strings, arrays and objects.  (Non-integer JSON
numbers are outside the modelled universe.) -/
inductive JVal where
  | jnull : JVal
  | jbool : Bool → JVal
  | jint : Int → JVal
  | jstr : String → JVal
  | jarr : List JVal → JVal
  | jobj : List (String × JVal) → JVal

/-- Python truthiness (`bool(v)`) of a decoded value. -/
def pyFalsy : JVal → Bool
  | .jnull => true
  | .jbool b => !b
  | .jint n => n = 0
  | .jstr s => s = ""
  | .jarr xs => xs.isEmpty
  | .jobj kvs => kvs.isEmpty

/-- Python `dict.get(k)` on a decoded object. -/
def pyLookup (kvs : List (String × JVal)) (k : String) : Option JVal :=
  match kvs.find? (fun kv => kv.1 = k) with
  | some kv => some kv.2
  | none => none

/-- Python `k in dict`. -/
def hasKey (kvs : List (String × JVal)) (k : String) : Bool :=
  kvs.any (fun kv => kv.1 = k)

/-- Decimal digit test. -/
def isDigitCh (c : Char) : Bool := '0' ≤ c ∧ c ≤ '9'

/-- Numeric value of a decimal digit. -/
def digitVal (c : Char) : Nat := c.toNat - 48

/-- Parser of the digit part of Python `int(str)`: digits with single
underscores allowed between digits. -/
def parseDigitsGo (prevUnd : Bool) (acc : Nat) : List Char → Option Nat
  | [] => if prevUnd then none else some acc
  | c :: rest =>
    if isDigitCh c then parseDigitsGo false (acc * 10 + digitVal c) rest
    else if c = '_' then (if prevUnd then none else parseDigitsGo true acc rest)
    else none

/-- Digit-sequence entry point: the first character must be a digit. -/
def pyParseDigits : List Char → Option Nat
  | [] => none
  | c :: rest => if isDigitCh c then parseDigitsGo false (digitVal c) rest else none

/-- Python `int(s)` for a string (whitespace stripped, optional sign,
ASCII digits). -/
def pyIntOfStr (s : String) : Option Int :=
  match stripL s.data with
  | '+' :: rest => (pyParseDigits rest).map (fun n => (n : Int))
  | '-' :: rest => (pyParseDigits rest).map (fun n => -(n : Int))
  | rest => (pyParseDigits rest).map (fun n => (n : Int))

/-- Python `int(v)` on a decoded value: integers and booleans convert,
strings parse, everything else raises (modelled as `none`). -/
def pyIntOf : JVal → Option Int
  | .jint n => some n
  | .jbool b => some (if b then 1 else 0)
  | .jstr s => pyIntOfStr s
  | _ => none

mutual

/-- Python `repr(v)` (string escaping inside reprs is not modelled). -/
def pyRepr : JVal → String
  | .jnull => "None"
  | .jbool true => "True"
  | .jbool false => "False"
  | .jint n => toString n
  | .jstr s => "'" ++ s ++ "'"
  | .jarr xs => "[" ++ pyReprList xs ++ "]"
  | .jobj kvs => "\x7b" ++ pyReprPairs kvs ++ "\x7d"

/-- Comma-joined reprs of array elements. -/
def pyReprList : List JVal → String
  | [] => ""
  | v :: rest =>
    match rest with
    | [] => pyRepr v
    | _ :: _ => pyRepr v ++ ", " ++ pyReprList rest

/-- Comma-joined reprs of object items. -/
def pyReprPairs : List (String × JVal) → String
  | [] => ""
  | (k, v) :: rest =>
    match rest with
    | [] => "'" ++ k ++ "': " ++ pyRepr v
    | _ :: _ => "'" ++ k ++ "': " ++ pyRepr v ++ ", " ++ pyReprPairs rest

end

/-- Python `str(v)`. -/
def pyStr : JVal → String
  | .jstr s => s
  | v => pyRepr v

/-- Python `kw in v` inside `any(kw in text for ...)`: substring test on
strings, membership on lists, key test on dicts, `TypeError` otherwise. -/
def pyContainsKw (kw : String) : JVal → Except String Bool
  | .jstr s => .ok (pyInStr kw s)
  | .jarr xs => .ok (xs.any (fun v => match v with | .jstr s => s = kw | _ => false))
  | .jobj kvs => .ok (hasKey kvs kw)
  | .jnull => .error "TypeError"
  | .jbool _ => .error "TypeError"
  | .jint _ => .error "TypeError"

/-- Python `any(kw in text for kw in kws)` with short-circuiting. -/
def anyKw : List String → JVal → Except String Bool
  | [], _ => .ok false
  | k :: ks, v => do
    let b ← pyContainsKw k v
    if b then pure true else anyKw ks v

/-- One report-field pass of the keyword blanking loops of
`validate_and_clean_analysis`: the field is blanked when any keyword occurs. -/
def kwFilterWith (kws : List String) (v : JVal) : Except String JVal := do
  let b ← anyKw kws v
  pure (if b then JVal.jstr "" else v)

/-- The `forbidden_keywords` list of `validate_and_clean_analysis`. -/
def forbiddenKeywords : List String :=
  ["문맥상", "부적절", "어색", "더 자연스럽", "더 적절", "수정하는 것이 좋", "제안",
   "바꾸는 것", "의미를 명확히"]

/-- The `forbidden_phrases` list of `validate_and_clean_analysis`. -/
def forbiddenPhrases : List String := ["오류 없음", "정상", "문제 없음", "수정할 필요 없음"]

/-- Python `result.get(k, "") or ""`. -/
def getOrEmpty (kvs : List (String × JVal)) (k : String) : JVal :=
  match pyLookup kvs k with
  | some v => if pyFalsy v then .jstr "" else v
  | none => .jstr ""

/-- `clean_self_equal_corrections` applied to a report field that may hold a
non-string value: falsy values short-circuit to `""` inside the function and
truthy non-strings raise at `report.splitlines()`. -/
def cleanSelfEqualJ (v : JVal) : Except String String :=
  if pyFalsy v then .ok ""
  else
    match v with
    | .jstr s => .ok (clean_self_equal_corrections s)
    | _ => .error "AttributeError"

/-- The raw `suspicion_score` of the reply, parsed as Python `int(...)`
(`none` models both a missing field and a raised conversion). -/
def rawScore (kvs : List (String × JVal)) : Option Int :=
  match pyLookup kvs "suspicion_score" with
  | some v => pyIntOf v
  | none => none

/-- Score coercion of `validate_and_clean_analysis`: parse failure gives 1,
then clamp below to 1 and above to 5. -/
def coercedScore (kvs : List (String × JVal)) : Int :=
  let s0 := match rawScore kvs with | some n => n | none => 1
  let s1 := if s0 < 1 then 1 else s0
  if s1 > 5 then 5 else s1

/-- The message of the `ERROR` branch of `validate_and_clean_analysis`:
`err_obj = result.get("ERROR") or {}`, then `err_obj.get("message") or
str(err_obj)` for dicts and `str(err_obj)` otherwise. -/
def errMsgOf (kvs : List (String × JVal)) : String :=
  let errv := match pyLookup kvs "ERROR" with | some v => v | none => .jnull
  let errObj := if pyFalsy errv then JVal.jobj [] else errv
  match errObj with
  | .jobj ekvs =>
    (match pyLookup ekvs "message" with
     | some mv => if pyFalsy mv then pyStr (JVal.jobj ekvs) else pyStr mv
     | none => pyStr (JVal.jobj ekvs))
  | v => pyStr v

/-- The cleaned 4-field record produced by `validate_and_clean_analysis`
(the content field is always a string on return, the other two report fields
keep whatever value survived the blanking loops). -/
structure PyResult where
  score : Int
  content : String
  translated : JVal
  markdown : JVal

/-- `sheet_review.validate_and_clean_analysis`: ERROR replies and non-dict
replies degrade to score 5; otherwise the fields are extracted with falsy
defaulting, blanked by the two forbidden-keyword loops, the contents field is
cleaned of self-equal corrections, and the score is coerced and made
consistent with the emptiness of the three fields.  A Python `TypeError` or
`AttributeError` on a truthy non-string field value is an `Except.error`. -/
def validate_and_clean_analysis (result : JVal) : Except String PyResult :=
  match result with
  | .jobj kvs =>
    if hasKey kvs "ERROR" then
      .ok ⟨5, "Gemini API 내부 오류: " ++ errMsgOf kvs, .jstr "", .jstr ""⟩
    else do
      let c0 := getOrEmpty kvs "content_typo_report"
      let t0 := getOrEmpty kvs "translated_typo_report"
      let m0 := getOrEmpty kvs "markdown_report"
      let c1 ← kwFilterWith forbiddenKeywords c0
      let t1 ← kwFilterWith forbiddenKeywords t0
      let m1 ← kwFilterWith forbiddenKeywords m0
      let c2 ← kwFilterWith forbiddenPhrases c1
      let t2 ← kwFilterWith forbiddenPhrases t1
      let m2 ← kwFilterWith forbiddenPhrases m1
      let content ← cleanSelfEqualJ c2
      let score0 := coercedScore kvs
      let score :=
        if content = "" ∧ pyFalsy t2 = true ∧ pyFalsy m2 = true then 1
        else if (content ≠ "" ∨ pyFalsy t2 = false ∨ pyFalsy m2 = false) ∧ score0 = 1 then 3
        else score0
      .ok ⟨score, content, t2, m2⟩
  | _ => .ok ⟨5, "AI 응답이 유효한 JSON 형식이 아님", .jstr "", .jstr ""⟩

theorem except_bind_ok {α β : Type} {x : Except String α} {f : α → Except String β} {b : β}
    (h : x >>= f = .ok b) : ∃ a, x = .ok a ∧ f a = .ok b := by
  cases x with
  | error e =>
    exfalso
    simp only [Bind.bind, Except.bind] at h
    exact Except.noConfusion h
  | ok a =>
    refine ⟨a, rfl, ?_⟩
    simpa only [Bind.bind, Except.bind] using h

theorem coercedScore_bounds (kvs : List (String × JVal)) :
    1 ≤ coercedScore kvs ∧ coercedScore kvs ≤ 5 := by
  unfold coercedScore
  rcases rawScore kvs with _ | n <;> simp only [] <;> split <;> split <;> omega

theorem coercedScore_cases (kvs : List (String × JVal)) :
    (rawScore kvs = none → coercedScore kvs = 1) ∧
    (∀ n, rawScore kvs = some n → n < 1 → coercedScore kvs = 1) ∧
    (∀ n, rawScore kvs = some n → 5 < n → coercedScore kvs = 5) ∧
    (∀ n, rawScore kvs = some n → 1 ≤ n → n ≤ 5 → coercedScore kvs = n) := by
  rcases hr : rawScore kvs with _ | m
  · refine ⟨fun _ => ?_, ?_, ?_, ?_⟩
    · simp only [coercedScore, hr]
      decide
    all_goals
      intro n hn
      exact Option.noConfusion hn
  · refine ⟨fun hc => Option.noConfusion hc, ?_, ?_, ?_⟩ <;>
      intro n hn <;>
      obtain rfl : m = n := Option.some.inj hn <;>
      intros <;>
      simp only [coercedScore, hr] <;>
      omega

theorem str_append_ne_empty {a b : String} (ha : a ≠ "") : a ++ b ≠ "" := by
  intro he
  apply ha
  have hd : (a ++ b).data = "".data := congrArg String.data he
  rw [String.data_append] at hd
  have : a.data = [] := by
    rcases List.append_eq_nil.mp hd with ⟨h1, _⟩
    exact h1
  exact String.ext this

/-- C2.  Score consistency: whenever `validate_and_clean_analysis` returns a
cleaned result, the score is an integer in `[1, 5]`; if all three cleaned
report fields are empty the score is 1; on the normal (non-error) path, if
any cleaned field is non-empty while the coerced raw score was 1 the final
score is 3; and the raw-score coercion sends non-parseable values to 1,
values below 1 to 1 and values above 5 to 5. -/
theorem score_consistency :
    ∀ v res, validate_and_clean_analysis v = .ok res →
      (1 ≤ res.score ∧ res.score ≤ 5) ∧
      ((res.content = "" ∧ pyFalsy res.translated = true ∧ pyFalsy res.markdown = true) →
        res.score = 1) ∧
      (∀ kvs, v = JVal.jobj kvs → hasKey kvs "ERROR" = false →
        ((res.content ≠ "" ∨ pyFalsy res.translated = false ∨ pyFalsy res.markdown = false) →
          coercedScore kvs = 1 → res.score = 3) ∧
        (rawScore kvs = none → coercedScore kvs = 1) ∧
        (∀ n, rawScore kvs = some n → n < 1 → coercedScore kvs = 1) ∧
        (∀ n, rawScore kvs = some n → 5 < n → coercedScore kvs = 5) ∧
        (∀ n, rawScore kvs = some n → 1 ≤ n → n ≤ 5 → coercedScore kvs = n)) := by
  intro v res h
  cases v with
  | jobj kvs =>
    unfold validate_and_clean_analysis at h
    simp only [] at h
    by_cases hk : hasKey kvs "ERROR" = true
    · rw [if_pos hk] at h
      obtain rfl : (⟨5, "Gemini API 내부 오류: " ++ errMsgOf kvs, .jstr "", .jstr ""⟩ : PyResult) = res :=
        Except.ok.inj h
      refine ⟨⟨by norm_num, by norm_num⟩, ?_, ?_⟩
      · intro ⟨hc, _, _⟩
        exact absurd hc (str_append_ne_empty (by decide))
      · intro kvs2 hv hk2
        obtain rfl : kvs = kvs2 := by injection hv
        rw [hk] at hk2
        exact Bool.noConfusion hk2
    · rw [if_neg hk] at h
      obtain ⟨c1, hc1, h⟩ := except_bind_ok h
      obtain ⟨t1, ht1, h⟩ := except_bind_ok h
      obtain ⟨m1, hm1, h⟩ := except_bind_ok h
      obtain ⟨c2, hc2, h⟩ := except_bind_ok h
      obtain ⟨t2, ht2, h⟩ := except_bind_ok h
      obtain ⟨m2, hm2, h⟩ := except_bind_ok h
      obtain ⟨content, hcon, h⟩ := except_bind_ok h
      obtain rfl :
          (⟨if content = "" ∧ pyFalsy t2 = true ∧ pyFalsy m2 = true then 1
            else if (content ≠ "" ∨ pyFalsy t2 = false ∨ pyFalsy m2 = false) ∧
                coercedScore kvs = 1 then 3
            else coercedScore kvs, content, t2, m2⟩ : PyResult) = res :=
        Except.ok.inj h
      refine ⟨?_, ?_, ?_⟩
      · simp only []
        split
        · omega
        · split
          · omega
          · exact coercedScore_bounds kvs
      · intro ⟨hc, ht, hm⟩
        simp only [] at hc ht hm ⊢
        rw [if_pos ⟨hc, ht, hm⟩]
      · intro kvs2 hv hk2
        obtain rfl : kvs = kvs2 := by injection hv
        obtain ⟨g1, g2, g3, g4⟩ := coercedScore_cases kvs
        refine ⟨?_, g1, g2, g3, g4⟩
        intro hany hco
        simp only [] at hany ⊢
        rw [if_neg ?_, if_pos ⟨hany, hco⟩]
        intro ⟨hc, ht, hm⟩
        rcases hany with ha | ha | ha
        · exact ha hc
        · rw [ht] at ha; exact Bool.noConfusion ha
        · rw [hm] at ha; exact Bool.noConfusion ha
  | jnull =>
    obtain rfl : (⟨5, "AI 응답이 유효한 JSON 형식이 아님", .jstr "", .jstr ""⟩ : PyResult) = res :=
      Except.ok.inj h
    exact ⟨by constructor <;> decide, fun ⟨hc, _, _⟩ => absurd hc (by decide),
      fun kvs2 hv => JVal.noConfusion hv⟩
  | jbool b =>
    obtain rfl : (⟨5, "AI 응답이 유효한 JSON 형식이 아님", .jstr "", .jstr ""⟩ : PyResult) = res :=
      Except.ok.inj h
    exact ⟨by constructor <;> decide, fun ⟨hc, _, _⟩ => absurd hc (by decide),
      fun kvs2 hv => JVal.noConfusion hv⟩
  | jint n =>
    obtain rfl : (⟨5, "AI 응답이 유효한 JSON 형식이 아님", .jstr "", .jstr ""⟩ : PyResult) = res :=
      Except.ok.inj h
    exact ⟨by constructor <;> decide, fun ⟨hc, _, _⟩ => absurd hc (by decide),
      fun kvs2 hv => JVal.noConfusion hv⟩
  | jstr s =>
    obtain rfl : (⟨5, "AI 응답이 유효한 JSON 형식이 아님", .jstr "", .jstr ""⟩ : PyResult) = res :=
      Except.ok.inj h
    exact ⟨by constructor <;> decide, fun ⟨hc, _, _⟩ => absurd hc (by decide),
      fun kvs2 hv => JVal.noConfusion hv⟩
  | jarr xs =>
    obtain rfl : (⟨5, "AI 응답이 유효한 JSON 형식이 아님", .jstr "", .jstr ""⟩ : PyResult) = res :=
      Except.ok.inj h
    exact ⟨by constructor <;> decide, fun ⟨hc, _, _⟩ => absurd hc (by decide),
      fun kvs2 hv => JVal.noConfusion hv⟩

theorem score_consistency_witness :
    1 ≤ (⟨3, "", .jstr "- 'a' → 'b': x", .jstr ""⟩ : PyResult).score ∧
      (⟨3, "", .jstr "- 'a' → 'b': x", .jstr ""⟩ : PyResult).score ≤ 5 :=
  (score_consistency
    (.jobj [("suspicion_score", .jint 1), ("translated_typo_report", .jstr "- 'a' → 'b': x")])
    ⟨3, "", .jstr "- 'a' → 'b': x", .jstr ""⟩ (by rfl)).1

/-- C3.  Normalizer degraded output: a reply that is not a mapping produces
score 5 with the fixed not-valid-structured-data content report and empty
other reports; a mapping with an `ERROR` entry produces score 5 with a
content report containing the extracted error message and empty other
reports; in both cases `validate_and_clean_analysis` returns normally
(`Except.ok`, no exception). -/
theorem normalizer_degraded :
    (∀ v, (∀ kvs, v ≠ JVal.jobj kvs) →
      validate_and_clean_analysis v =
        .ok ⟨5, "AI 응답이 유효한 JSON 형식이 아님", .jstr "", .jstr ""⟩) ∧
    (∀ kvs, hasKey kvs "ERROR" = true →
      validate_and_clean_analysis (.jobj kvs) =
        .ok ⟨5, "Gemini API 내부 오류: " ++ errMsgOf kvs, .jstr "", .jstr ""⟩ ∧
      pyInStr (errMsgOf kvs) ("Gemini API 내부 오류: " ++ errMsgOf kvs) = true) := by
  constructor
  · intro v hv
    cases v with
    | jobj kvs => exact absurd rfl (hv kvs)
    | jnull => rfl
    | jbool b => rfl
    | jint n => rfl
    | jstr s => rfl
    | jarr xs => rfl
  · intro kvs hk
    constructor
    · unfold validate_and_clean_analysis
      simp only []
      rw [if_pos hk]
    · rw [pyInStr_iff, String.data_append]
      exact (List.suffix_append _ _).isInfix

theorem normalizer_degraded_witness :
    validate_and_clean_analysis .jnull =
        .ok ⟨5, "AI 응답이 유효한 JSON 형식이 아님", .jstr "", .jstr ""⟩ ∧
    validate_and_clean_analysis (.jobj [("ERROR", .jstr "boom")]) =
        .ok ⟨5, "Gemini API 내부 오류: " ++ errMsgOf [("ERROR", .jstr "boom")],
          .jstr "", .jstr ""⟩ :=
  ⟨normalizer_degraded.1 .jnull (fun kvs h => JVal.noConfusion h),
   (normalizer_degraded.2 [("ERROR", .jstr "boom")] (by decide)).1⟩

/-- The joint text a language side sends to the model:
`"\n".join(t for t in [plain.strip(), md.strip()] if t)`. -/
def combineTexts (plain md : String) : String :=
  joinNLne [pyStrip plain, pyStrip md]

/-- Python `v or ""` fed to a function that immediately calls string methods
on it: falsy values become `""`, strings pass through, a truthy non-string
raises (`AttributeError` at `.splitlines()`). -/
def reportArgOf (v : JVal) : Except String String :=
  if pyFalsy v then .ok ""
  else
    match v with
    | .jstr s => .ok s
    | _ => .error "AttributeError"

/-- The empty-language default record of `analyze_row_with_both_langs`. -/
def emptyLangResult : PyResult := ⟨1, "", .jstr "", .jstr ""⟩

/-- The fixed 4-field combined record returned for a spreadsheet row. -/
structure Combined where
  score : Int
  content_typo_report : String
  translated_typo_report : String
  markdown_report : String

/-- The English side of `analyze_row_with_both_langs`: clean the raw reply,
then sanitize the content report against the joint English text and run the
sentence-level punctuation check; an empty text short-circuits to the
default record. -/
def enSideResult (en_text : String) (rawEn : JVal) : Except String PyResult :=
  if en_text ≠ "" then do
    let fe ← validate_and_clean_analysis rawEn
    let f1 := sanitize_report en_text fe.content
    let f2 := ensure_sentence_end_punctuation en_text f1
    pure { fe with content := f2 }
  else pure emptyLangResult

/-- The Korean side of `analyze_row_with_both_langs`: clean the raw reply,
sanitize the translated report, run both punctuation injectors and the
deduplication pass; an empty text short-circuits to the default record. -/
def koSideResult (ko_text : String) (rawKo : JVal) : Except String PyResult :=
  if ko_text ≠ "" then do
    let fk ← validate_and_clean_analysis rawKo
    let t0 ← reportArgOf fk.translated
    let f1 := sanitize_report ko_text t0
    let f2 := ensure_final_punctuation_error ko_text f1
    let f3 := ensure_sentence_end_punctuation ko_text f2
    let f4 := dedup_korean_bullet_lines f3
    pure { fk with translated := .jstr f4 }
  else pure emptyLangResult

/-- `sheet_review.analyze_row_with_both_langs`, parameterized by the two raw
model replies (the external `analyze_text_with_gemini` results); only the
combined record is modelled, the debug bundle has no effect on it. -/
def analyze_row_with_both_langs (enPlainRaw enMdRaw koPlainRaw koMdRaw : String)
    (rawEn rawKo : JVal) : Except String Combined := do
  let final_en ← enSideResult (combineTexts enPlainRaw enMdRaw) rawEn
  let final_ko ← koSideResult (combineTexts koPlainRaw koMdRaw) rawKo
  let koRep ← reportArgOf final_ko.translated
  let enSplit := split_report_by_source final_en.content (pyStrip enPlainRaw) (pyStrip enMdRaw)
  let koSplit := split_report_by_source koRep (pyStrip koPlainRaw) (pyStrip koMdRaw)
  pure ⟨max final_en.score final_ko.score, enSplit.1, koSplit.1,
    joinNLne [enSplit.2, koSplit.2]⟩

/-- The cleaned score contributed by one language side: 1 when that side's
combined text is empty, otherwise the score of the cleaned model reply. -/
def cleanedScore (text : String) (raw : JVal) : Except String Int :=
  if text ≠ "" then do
    let r ← validate_and_clean_analysis raw
    pure r.score
  else pure 1

theorem enSideResult_score {text : String} {raw : JVal} {fe : PyResult}
    (h : enSideResult text raw = .ok fe) : cleanedScore text raw = .ok fe.score := by
  unfold enSideResult at h
  unfold cleanedScore
  by_cases ht : text ≠ ""
  · rw [if_pos ht] at h ⊢
    obtain ⟨fe0, hfe0, hfe1⟩ := except_bind_ok h
    rw [hfe0]
    obtain rfl := (Except.ok.inj hfe1).symm
    rfl
  · rw [if_neg ht] at h ⊢
    obtain rfl := (Except.ok.inj h).symm
    rfl

theorem koSideResult_score {text : String} {raw : JVal} {fk : PyResult}
    (h : koSideResult text raw = .ok fk) : cleanedScore text raw = .ok fk.score := by
  unfold koSideResult at h
  unfold cleanedScore
  by_cases ht : text ≠ ""
  · rw [if_pos ht] at h ⊢
    obtain ⟨fk0, hfk0, hfk1⟩ := except_bind_ok h
    obtain ⟨t0, ht0, hfk2⟩ := except_bind_ok hfk1
    rw [hfk0]
    obtain rfl := (Except.ok.inj hfk2).symm
    rfl
  · rw [if_neg ht] at h ⊢
    obtain rfl := (Except.ok.inj h).symm
    rfl

/-- C10.  Combined score is the per-language maximum: whenever
`analyze_row_with_both_langs` returns a combined record, its suspicion score
is the maximum of the English-side and Korean-side cleaned scores, a language
with empty combined text contributing 1. -/
theorem combined_score_is_max :
    ∀ ep em kp km rawEn rawKo res,
      analyze_row_with_both_langs ep em kp km rawEn rawKo = .ok res →
      ∃ se sk, cleanedScore (combineTexts ep em) rawEn = .ok se ∧
        cleanedScore (combineTexts kp km) rawKo = .ok sk ∧
        res.score = max se sk := by
  intro ep em kp km rawEn rawKo res h
  unfold analyze_row_with_both_langs at h
  obtain ⟨fe, hfe, h⟩ := except_bind_ok h
  obtain ⟨fk, hfk, h⟩ := except_bind_ok h
  obtain ⟨koRep, hko, h⟩ := except_bind_ok h
  obtain rfl := (Except.ok.inj h).symm
  exact ⟨fe.score, fk.score, enSideResult_score hfe, koSideResult_score hfk, rfl⟩

theorem combined_score_is_max_witness :
    ∃ se sk, cleanedScore (combineTexts "" "") .jnull = .ok se ∧
      cleanedScore (combineTexts "" "") .jnull = .ok sk ∧
      (⟨1, "", "", ""⟩ : Combined).score = max se sk :=
  combined_score_is_max "" "" "" "" .jnull .jnull ⟨1, "", "", ""⟩ (by rfl)

theorem dedup_idempotent_witness :
    dedup_korean_bullet_lines (dedup_korean_bullet_lines "- 'a' → 'b': x") =
      dedup_korean_bullet_lines "- 'a' → 'b': x" :=
  dedup_idempotent "- 'a' → 'b': x"
